import Mathlib

/-!
Verification development for the Kea DHCP lease monitor
(`kea_lease_monitor.py`): a shallow embedding of the lease-ingestion and
inventory-reconciliation engine, together with theorems about its
documented properties.

Conventions of the embedding:
* Python `None`/`''` optionality of string fields is modelled by `Option
  String` where the distinction is observable (lease fields), and by the
  empty string where the code itself collapses the two (inventory-target
  fields accessed with `target.get(key, '')` and written only when truthy).
* YAML files are modelled by their parsed content; the informational
  `updated_at` timestamp is not part of the modelled inventory state.
* The PostgreSQL reservation store is modelled as an explicit row list with
  transactional writes made explicit (pending state published on commit,
  discarded on rollback), and the external DNS collaborator as a boolean
  oracle `String → String → Bool` standing for `create_dns_record`.
-/

namespace KeaLeaseMonitor

/-! ## String primitives

Python string operations used by the monitor, modelled on `List Char`
(code-point lists), matching Python's code-point-wise semantics on the
ASCII hostnames the tool handles. -/

/-- Python `str.lower` on a code-point list. -/
def lowerChars (cs : List Char) : List Char := cs.map Char.toLower

/-- Python `str.lower`. -/
def lowerStr (s : String) : String := ⟨lowerChars s.data⟩

/-- Python `str.upper`. -/
def upperStr (s : String) : String := ⟨s.data.map Char.toUpper⟩

/-- `needle` occurs at the start of `hay` (Python `str.startswith`). -/
def startsWithChars : List Char → List Char → Bool
  | [], _ => true
  | _ :: _, [] => false
  | a :: as, b :: bs => a = b && startsWithChars as bs

/-- `needle in hay` (Python substring containment). -/
def containsChars (needle : List Char) : List Char → Bool
  | [] => startsWithChars needle []
  | b :: bs => startsWithChars needle (b :: bs) || containsChars needle bs

/-- Python `a in b` on strings. -/
def strContains (hay needle : String) : Bool := containsChars needle.data hay.data

/-- Python `str.endswith`. -/
def strEndsWith (s suf : String) : Bool := List.isSuffixOf suf.data s.data

/-- Python `<` on strings: lexicographic comparison by code point. -/
def charListLt : List Char → List Char → Bool
  | [], [] => false
  | [], _ :: _ => true
  | _ :: _, [] => false
  | a :: as, b :: bs =>
    if a.toNat < b.toNat then true
    else if b.toNat < a.toNat then false
    else charListLt as bs

/-- Python `<=` on strings. -/
def strLe (a b : String) : Bool := !(charListLt b.data a.data)

/-- Value of a run of ASCII digits, as Python `int` reads it
(`int "05" = 5`). -/
def digitsToNat (ds : List Char) : Nat :=
  ds.foldl (fun n c => n * 10 + (c.toNat - 48)) 0

/-! ## Rack-unit extraction

The regular expression `ru(\d+)(?:-(\d+))?` searched (leftmost match) in
the lowercased hostname, shared by `_extract_rack_unit`,
`_format_rack_unit` and `_get_rack_unit_range`. -/

/-- Attempt to match `ru(\d+)(?:-(\d+))?` at the head of `cs`, returning
the two captured groups. -/
def ruAt (cs : List Char) : Option (Nat × Option Nat) :=
  match cs with
  | 'r' :: 'u' :: rest =>
    let ds := rest.takeWhile Char.isDigit
    if ds = [] then none
    else
      let rest2 := rest.dropWhile Char.isDigit
      match rest2 with
      | '-' :: rest3 =>
        let ds2 := rest3.takeWhile Char.isDigit
        if ds2 = [] then some (digitsToNat ds, none)
        else some (digitsToNat ds, some (digitsToNat ds2))
      | _ => some (digitsToNat ds, none)
  | _ => none

/-- Leftmost match of `ru(\d+)(?:-(\d+))?` (Python `re.search`). -/
def findRu : List Char → Option (Nat × Option Nat)
  | [] => none
  | c :: rest =>
    match ruAt (c :: rest) with
    | some r => some r
    | none => findRu rest

/-- `_extract_rack_unit`: highest rack unit named by the hostname, `0`
when absent. -/
def extractRackUnit (hostname : String) : Nat :=
  if hostname = "" then 0
  else
    match findRu (lowerChars hostname.data) with
    | some (s, e) => max s (e.getD s)
    | none => 0

/-- `_format_rack_unit`: display string `"RU high-low"` or `"RU n"`, empty
when no token matches.  The second group participates only when truthy
(the Python `if ru_end:` test), so a captured `0` is displayed as a single
unit. -/
def formatRackUnit (hostname : String) : String :=
  if hostname = "" then ""
  else
    match findRu (lowerChars hostname.data) with
    | some (s, oe) =>
      match oe with
      | some e =>
        if e ≠ 0 then
          "RU " ++ toString (max s e) ++ "-" ++ toString (min s e)
        else "RU " ++ toString s
      | none => "RU " ++ toString s
    | none => ""

/-- `_get_rack_unit_range` as the set of occupied units. -/
def getRackUnitRange (hostname : String) : Finset Nat :=
  if hostname = "" then ∅
  else
    match findRu (lowerChars hostname.data) with
    | some (s, oe) =>
      let e := oe.getD s
      Finset.Icc (min s e) (max s e)
    | none => ∅

/-- `_get_rack_unit_range` as the list `range(min, max + 1)`, the order in
which `_validate_bmc_conflicts` walks the occupied units. -/
def rackUnitRangeList (hostname : String) : List Nat :=
  if hostname = "" then []
  else
    match findRu (lowerChars hostname.data) with
    | some (s, oe) =>
      let e := oe.getD s
      List.range' (min s e) (max s e + 1 - min s e)
    | none => []

/-- `_detect_manufacturer`: vendor from hostname suffix. -/
def detectManufacturer (hostname : String) : String :=
  if hostname = "" then "Unknown"
  else
    let hl := lowerStr hostname
    if strEndsWith hl "-idrac" || strContains hl "idrac" then "Dell"
    else if strEndsWith hl "-ilo" || strContains hl "ilo" then "HP"
    else if strEndsWith hl "-bmc" || strEndsWith hl "bmc" then "Supermicro"
    else "Unknown"

/-! ## Data model -/

/-- `DHCPLease`: one observed lease.  `mac` is `Option String` because the
notification-based source stores `None` when the payload carries no
`dhcp_identifier`; `hostname` is `Option String` as in the dataclass. -/
structure Lease where
  ip : String
  mac : Option String
  hostname : Option String
  subnetId : Option String
  timestamp : Int
  deriving DecidableEq, Repr

/-- Python truthiness of an optional string: `None` and `''` are falsy. -/
def optStr (o : Option String) : String := o.getD ""

/-- Per-IP record held in `existing_bmc_map` (empty string encodes an
absent value, as produced by `target.get(key, '')`). -/
structure BmcDetails where
  mac : String
  hostname : String
  manufacturer : String
  deriving DecidableEq, Repr

/-- One row of a persisted cabinet inventory.  A field equal to `""`
stands for an absent key (the writer only emits truthy values, the loader
reads with default `''`). -/
structure BmcTarget where
  ip : String
  mac : String
  hostname : String
  rackUnit : String
  manufacturer : String
  deriving DecidableEq, Repr

/-- Persisted cabinet inventory file, minus the informational
`updated_at` timestamp. -/
structure CabinetInventory where
  bmcTargets : List BmcTarget
  site : String
  cabinet : String
  totalCount : Nat
  deriving DecidableEq, Repr

/-! ## Site and cabinet extraction -/

/-- The alternation `(us[1-4]|dv)` anchored at the start. -/
def siteAt (cs : List Char) : Option (String × List Char) :=
  match cs with
  | 'u' :: 's' :: c :: rest =>
    if c = '1' ∨ c = '2' ∨ c = '3' ∨ c = '4' then some (⟨['u', 's', c]⟩, rest)
    else none
  | 'd' :: 'v' :: rest => some ("dv", rest)
  | _ => none

/-- `_extract_site_and_cabinet`: match `^(us[1-4]|dv)-cab(\d+)-` against
the lowercased hostname and return `(site, "cab" ++ digits)`. -/
def extractSiteAndCabinet (hostname : Option String) : Option (String × String) :=
  if optStr hostname = "" then none
  else
    let cs := lowerChars (optStr hostname).data
    match siteAt cs with
    | none => none
    | some (site, rest) =>
      match rest with
      | '-' :: 'c' :: 'a' :: 'b' :: rest2 =>
        let ds := rest2.takeWhile Char.isDigit
        if ds = [] then none
        else
          match rest2.dropWhile Char.isDigit with
          | '-' :: _ => some (site, "cab" ++ (⟨ds⟩ : String))
          | _ => none
      | _ => none

/-! ## Grouping (Python dict insertion-order semantics) -/

/-- Keys of a pair list in first-occurrence order, as a Python dict
enumerates them. -/
def firstKeys {κ : Type} [DecidableEq κ] (seen : List κ) : List κ → List κ
  | [] => []
  | k :: rest =>
    if k ∈ seen then firstKeys seen rest
    else k :: firstKeys (k :: seen) rest

/-- Materialisation of the Python pattern
`d.setdefault(k, []).append(v)` over a pair list: keys in first-occurrence
order, each with its values in arrival order. -/
def groupPairs {κ β : Type} [DecidableEq κ] (ps : List (κ × β)) : List (κ × List β) :=
  (firstKeys [] (ps.map Prod.fst)).map
    (fun k => (k, (ps.filter (fun p => p.1 = k)).map Prod.snd))

/-! ## Conflict detection (`_validate_bmc_conflicts`) -/

/-- One log line emitted by `_validate_bmc_conflicts`; the per-kind
payload is kept structured rather than pre-formatted. -/
inductive Warning where
  | macConflict (site cabinet mac : String) (ips : List String)
  | hostnameConflict (site cabinet hostname : String) (ips : List String)
  | ruConflict (site cabinet : String) (ru : Nat) (devices : List (String × String))
  | cabinetSummary (site cabinet : String)
  deriving DecidableEq, Repr

/-- Python `sorted` on strings (a stable sort, modelled by insertion
sort). -/
def sortStrings (l : List String) : List String :=
  l.insertionSort (fun a b => strLe a b = true)

/-- Python `<=` on `(ip, hostname)` pairs (lexicographic tuples). -/
def pairLe (a b : String × String) : Bool :=
  charListLt a.1.data b.1.data || (a.1 = b.1 && strLe a.2 b.2)

/-- Python `sorted` on `(ip, hostname)` pairs. -/
def sortPairs (l : List (String × String)) : List (String × String) :=
  l.insertionSort (fun a b => pairLe a b = true)

/-- `_validate_bmc_conflicts`: duplicate-mac, duplicate-hostname and
overlapping-rack-unit warnings, then a summary error when any conflict was
found.  The write that follows is independent of this result. -/
def validateBmcConflicts (bmcTargets : List BmcTarget) (site cabinet : String) :
    List Warning :=
  let macGroups := groupPairs
    ((bmcTargets.filter (fun t => t.mac ≠ "")).map (fun t => (t.mac, t.ip)))
  let hostGroups := groupPairs
    ((bmcTargets.filter (fun t => t.hostname ≠ "")).map (fun t => (t.hostname, t.ip)))
  let ruGroups := groupPairs
    ((bmcTargets.filter (fun t => t.hostname ≠ "")).flatMap
      (fun t => (rackUnitRangeList t.hostname).map (fun ru => (ru, (t.ip, t.hostname)))))
  let macWs := (macGroups.filter (fun g => 1 < g.2.length)).map
    (fun g => Warning.macConflict site cabinet g.1 (sortStrings g.2))
  let hostWs := (hostGroups.filter (fun g => 1 < g.2.length)).map
    (fun g => Warning.hostnameConflict site cabinet g.1 (sortStrings g.2))
  let ruWs := (ruGroups.filter (fun g => 1 < g.2.length)).map
    (fun g => Warning.ruConflict site cabinet g.1 (sortPairs g.2))
  let ws := macWs ++ hostWs ++ ruWs
  if ws = [] then ws else ws ++ [Warning.cabinetSummary site cabinet]

/-- Recogniser for a mac-conflict warning about a given mac. -/
def isMacConflictFor (mac : String) : Warning → Bool
  | Warning.macConflict _ _ m _ => decide (m = mac)
  | _ => false

/-! ## Loading, merging, building, sorting (`_update_cabinet_inventory`) -/

/-- Abstraction of `_query_lease_details` when the reservation database is
disabled or unreachable: every field comes back empty. -/
def queryDisabled : String → BmcDetails := fun _ => ⟨"", "", ""⟩

/-- Loading an existing inventory file into `existing_bmc_map`.  The new
format (first target carries a `mac` key) is read inline; otherwise the
legacy path reconstructs each IP through `_query_lease_details`, here the
oracle `queryDb`. -/
def loadExisting (queryDb : String → BmcDetails) :
    Option (List BmcTarget) → List (String × BmcDetails)
  | none => []
  | some tgts =>
    match tgts with
    | [] => []
    | t0 :: _ =>
      if t0.mac ≠ "" then
        tgts.map (fun t => (t.ip, ⟨t.mac, t.hostname, t.manufacturer⟩))
      else
        tgts.map (fun t => (t.ip, queryDb t.ip))

/-- The record created for a lease newly admitted by the merge loop. -/
def mergeDetails (l : Lease) : BmcDetails :=
  ⟨optStr l.mac, optStr l.hostname,
   if optStr l.hostname ≠ "" then detectManufacturer (optStr l.hostname) else ""⟩

/-- The merge loop: each lease whose IP is not yet a key becomes a new
entry (identity derived from the lease); known IPs are untouched.  Returns
the final map, the leases passed to `create_static_reservation` (new ones
with a hostname), and `new_hostnames`. -/
def mergeLeases (m : List (String × BmcDetails)) :
    List Lease → List (String × BmcDetails) × List Lease × List String
  | [] => (m, [], [])
  | l :: rest =>
    if l.ip ∈ m.map Prod.fst then mergeLeases m rest
    else
      let r := mergeLeases (m ++ [(l.ip, mergeDetails l)]) rest
      if optStr l.hostname ≠ "" then (r.1, l :: r.2.1, optStr l.hostname :: r.2.2)
      else r

/-- Building the `bmc_targets` rows from the map: `rack_unit` is
re-derived from the hostname at write time; other fields are copied. -/
def buildTargets (m : List (String × BmcDetails)) : List BmcTarget :=
  m.map (fun p =>
    { ip := p.1
      mac := p.2.mac
      hostname := p.2.hostname
      rackUnit := formatRackUnit p.2.hostname
      manufacturer := p.2.manufacturer })

/-- Sort key: `(rack unit | -1 without hostname, ip)`. -/
def ruKey (t : BmcTarget) : Int :=
  if t.hostname ≠ "" then (extractRackUnit t.hostname : Int) else -1

/-- The comparison realised by `bmc_targets.sort(key=…, reverse=True)`:
descending lexicographic order on `(ruKey, ip)`. -/
def tgtLe (a b : BmcTarget) : Bool :=
  decide (ruKey b < ruKey a) || (decide (ruKey a = ruKey b) && strLe b.ip a.ip)

/-- `tgtLe` as a relation, for the sort. -/
def tgtRel (a b : BmcTarget) : Prop := tgtLe a b = true

instance tgtRelDec : DecidableRel tgtRel := fun a b => Bool.decEq (tgtLe a b) true

/-- The in-place descending sort of the target rows (Python's sort is
stable; modelled by insertion sort, also stable). -/
def sortTargets (l : List BmcTarget) : List BmcTarget := l.insertionSort tgtRel

/-- Result of one `_update_cabinet_inventory` call: log lines, the file
content written, and the leases promoted to static reservations. -/
structure UpdateResult where
  warnings : List Warning
  inv : CabinetInventory
  promoted : List Lease
  deriving DecidableEq, Repr

/-- `_update_cabinet_inventory` for one `(site, cabinet)` pair: load the
persisted file (if any), merge the batch, rebuild the rows, validate, sort
and write. -/
def updateCabinetInventory (queryDb : String → BmcDetails) (site cabinet : String)
    (leases : List Lease) (file : Option (List BmcTarget)) : UpdateResult :=
  let m := mergeLeases (loadExisting queryDb file) leases
  let bmcTargets := buildTargets m.1
  let warnings := validateBmcConflicts bmcTargets site cabinet
  let sorted := sortTargets bmcTargets
  { warnings := warnings
    inv := { bmcTargets := sorted, site := site, cabinet := cabinet,
             totalCount := sorted.length }
    promoted := m.2.1 }

/-- The grouping step of `generate_batch_inventory`: leases keyed by
`(site, cabinet)` in first-occurrence order; leases that do not match the
naming convention are dropped. -/
def groupLeases (leases : List Lease) : List ((String × String) × List Lease) :=
  groupPairs (leases.filterMap
    (fun l => (extractSiteAndCabinet l.hostname).map (fun k => (k, l))))

/-- `generate_batch_inventory`: one `_update_cabinet_inventory` call per
affected cabinet.  `files` abstracts the output directory (persisted
targets per cabinet key, `none` when no file exists). -/
def generateBatchInventory (queryDb : String → BmcDetails)
    (files : String × String → Option (List BmcTarget)) (leases : List Lease) :
    List ((String × String) × UpdateResult) :=
  (groupLeases leases).map
    (fun g => (g.1, updateCabinetInventory queryDb g.1.1 g.1.2 g.2 (files g.1)))

/-! ## Poll-based lease source (`FileLeaseSource`) -/

/-- Mutable state of a `FileLeaseSource`: IPs already surfaced, and the
modification time remembered from the last read. -/
structure FileSourceState where
  processed : List String
  lastMtime : Option Nat
  deriving DecidableEq, Repr

/-- Observable content of the lease log at one call: whether the path
exists, its modification time, and its parsed CSV rows. -/
structure LeaseFile where
  present : Bool
  mtime : Nat
  rows : List (List String)
  deriving DecidableEq, Repr

/-- Python `int(s)` on the expiry column: an optional sign followed by
decimal digits; anything else raises `ValueError` (here `none`). -/
def pyInt (s : String) : Option Int :=
  match s.data with
  | [] => none
  | '-' :: ds =>
    if ds ≠ [] ∧ ds.all Char.isDigit then some (-(digitsToNat ds : Int)) else none
  | ds =>
    if ds ≠ [] ∧ ds.all Char.isDigit then some ((digitsToNat ds : Int)) else none

/-- `_parse_lease_line`: rows shorter than nine fields, rows whose expiry
fails to parse as an integer, and rows filtered out by the subnet
allow-list yield `none`. -/
def parseLeaseLine (subnetFilter : Option (List String)) (line : List String) :
    Option Lease :=
  if line.length < 9 then none
  else
    let ip := line.getD 0 ""
    let mac := line.getD 1 ""
    let subnetId := line.getD 5 ""
    let hostname := line.getD 8 ""
    match (if line.getD 4 "" ≠ "" then pyInt (line.getD 4 "") else some 0) with
    | none => none
    | some ts =>
      -- `if self.subnet_filter and subnet_id not in self.subnet_filter`:
      -- an empty filter set is falsy and filters nothing.
      if (match subnetFilter with
          | some filt => !filt.isEmpty && !filt.contains subnetId
          | none => false) then none
      else some ⟨ip, some mac, if hostname ≠ "" then some hostname else none,
                 some subnetId, ts⟩

/-- The truthiness test `if self.last_mtime and current_mtime ==
self.last_mtime` guarding the cheap no-op path. -/
def mtimeUnchanged (lastMtime : Option Nat) (current : Nat) : Bool :=
  match lastMtime with
  | some m => m ≠ 0 && current = m
  | none => false

/-- `FileLeaseSource.get_new_leases`: returns the new leases, the updated
source state, and whether the log body was actually read. -/
def getNewLeases (subnetFilter : Option (List String)) (st : FileSourceState)
    (file : LeaseFile) : List Lease × FileSourceState × Bool :=
  if !file.present then ([], st, false)
  else if mtimeUnchanged st.lastMtime file.mtime then ([], st, false)
  else
    let st' : FileSourceState := { st with lastMtime := some file.mtime }
    let leases := (file.rows.filterMap (parseLeaseLine subnetFilter)).filter
      (fun l => l.ip ∉ st.processed)
    (leases, st', true)

/-- `FileLeaseSource.mark_processed`. -/
def markProcessed (st : FileSourceState) (l : Lease) : FileSourceState :=
  { st with processed := st.processed ++ [l.ip] }

/-! ## Reservation store and transactional promotion
(`create_static_reservation`) -/

/-- One row of the Kea `hosts` table, restricted to the columns the
monitor writes.  The IP is kept in dotted-quad form (the SQL `inet`
arithmetic is a representation change only). -/
structure ResRow where
  dhcpIdentifier : String
  dhcpIdentifierType : Nat
  dhcp4SubnetId : Nat
  ipv4Address : String
  hostname : String
  deriving DecidableEq, Repr

/-- The `INSERT … ON CONFLICT (dhcp_identifier, dhcp_identifier_type,
dhcp4_subnet_id) DO UPDATE` upsert, with its `inserted` flag. -/
def upsertHost (store : List ResRow) (macHex : String) (subnetId : Nat)
    (ip hostname : String) : List ResRow × Bool :=
  if store.any (fun r => r.dhcpIdentifier = macHex ∧ r.dhcpIdentifierType = 0 ∧
      r.dhcp4SubnetId = subnetId) then
    (store.map (fun r =>
      if r.dhcpIdentifier = macHex ∧ r.dhcpIdentifierType = 0 ∧
          r.dhcp4SubnetId = subnetId then
        { r with ipv4Address := ip, hostname := hostname }
      else r), false)
  else
    (store ++ [⟨macHex, 0, subnetId, ip, hostname⟩], true)

/-- Static configuration of the `LeaseProcessor` relevant to reservation
promotion. -/
structure ProcCfg where
  dbEnabled : Bool
  enableDns : Bool
  subnetId : Nat
  deriving DecidableEq, Repr

/-- `create_static_reservation`.  The upsert runs inside one database
transaction: its effect is published only by the final commit and is
discarded by the rollback taken when DNS creation fails (`dns` is the
outcome of `create_dns_record hostname ip`).  A lease whose `mac` is
`None` raises inside the `try` block (attribute error on `.replace`) and
is caught: the function returns `False` with the store untouched. -/
def createStaticReservation (cfg : ProcCfg) (dns : String → String → Bool)
    (store : List ResRow) (l : Lease) : Bool × List ResRow :=
  if !cfg.dbEnabled then (false, store)
  else if optStr l.hostname = "" then (false, store)
  else
    match l.mac with
    | none => (false, store)
    | some mac =>
      let macHex := upperStr (mac.replace ":" "")
      let pending := upsertHost store macHex cfg.subnetId l.ip (optStr l.hostname)
      if cfg.enableDns then
        if dns (optStr l.hostname) l.ip then (true, pending.1)
        else (false, store)
      else (true, pending.1)

/-! ## Order lemmas

`charListLt` is the strict lexicographic comparison Python uses on
strings; these lemmas make `strLe` (and hence the sort comparison
`tgtLe`) a total preorder, as `List.mergeSort` requires. -/

theorem charListLt_asymm : ∀ a b : List Char,
    charListLt a b = true → charListLt b a = false := by
  intro a
  induction a with
  | nil => intro b h; cases b <;> simp_all [charListLt]
  | cons x xs ih =>
    intro b h
    cases b with
    | nil => simp [charListLt] at h
    | cons y ys =>
      simp only [charListLt] at h ⊢
      by_cases hxy : x.toNat < y.toNat
      · have hyx : ¬ y.toNat < x.toNat := by omega
        simp [hxy, hyx]
      · by_cases hyx : y.toNat < x.toNat
        · simp [hxy, hyx] at h
        · simp only [hxy, hyx, if_neg, if_false] at h ⊢
          simpa using ih ys h

theorem charListLt_conn : ∀ a b : List Char,
    charListLt a b = false → charListLt b a = false → a = b := by
  intro a
  induction a with
  | nil => intro b h _; cases b <;> simp_all [charListLt]
  | cons x xs ih =>
    intro b h h'
    cases b with
    | nil => simp [charListLt] at h'
    | cons y ys =>
      simp only [charListLt] at h h'
      by_cases hxy : x.toNat < y.toNat
      · simp [hxy] at h
      · by_cases hyx : y.toNat < x.toNat
        · simp [hxy, hyx] at h'
        · simp only [hxy, hyx, if_neg, if_false] at h h'
          have hn : x.toNat = y.toNat := by omega
          have hx : x = y := Char.ext (UInt32.ext hn)
          rw [hx, ih ys h h']

theorem charListLt_trans : ∀ a b c : List Char,
    charListLt a b = true → charListLt b c = true → charListLt a c = true := by
  intro a
  induction a with
  | nil =>
    intro b c h h'
    cases b with
    | nil => simp [charListLt] at h
    | cons y ys => cases c with
      | nil => simp [charListLt] at h'
      | cons z zs => simp [charListLt]
  | cons x xs ih =>
    intro b c h h'
    cases b with
    | nil => simp [charListLt] at h
    | cons y ys =>
      cases c with
      | nil => simp [charListLt] at h'
      | cons z zs =>
        simp only [charListLt] at h h' ⊢
        by_cases hxy : x.toNat < y.toNat
        · by_cases hyz : y.toNat < z.toNat
          · have : x.toNat < z.toNat := by omega
            simp [this]
          · by_cases hzy : z.toNat < y.toNat
            · simp [hxy, hyz, hzy] at h'
            · have hy : y.toNat = z.toNat := by omega
              have : x.toNat < z.toNat := by omega
              simp [this]
        · by_cases hyx : y.toNat < x.toNat
          · simp [hxy, hyx] at h
          · have hx : x.toNat = y.toNat := by omega
            simp only [hxy, hyx, if_neg, if_false] at h
            by_cases hyz : y.toNat < z.toNat
            · have : x.toNat < z.toNat := by omega
              simp [this]
            · by_cases hzy : z.toNat < y.toNat
              · simp [hyz, hzy] at h'
              · simp only [hyz, hzy, if_neg, if_false] at h'
                have hxz : ¬ x.toNat < z.toNat := by omega
                have hzx : ¬ z.toNat < x.toNat := by omega
                simp only [hxz, hzx, if_neg, if_false]
                exact ih ys zs h h'

theorem strLe_total (a b : String) : strLe a b = true ∨ strLe b a = true := by
  by_cases h : charListLt b.data a.data = true
  · right; simp [strLe, charListLt_asymm _ _ h]
  · left; simp [strLe]; simpa using h

theorem strLe_trans {a b c : String} (h : strLe a b = true) (h' : strLe b c = true) :
    strLe a c = true := by
  simp only [strLe, Bool.not_eq_true'] at h h' ⊢
  by_cases hca : charListLt c.data a.data = true
  · exfalso
    by_cases hbc : charListLt b.data c.data = true
    · have := charListLt_trans _ _ _ hbc hca
      rw [this] at h
      exact Bool.noConfusion h
    · have e : b.data = c.data :=
        charListLt_conn _ _ (by simpa using hbc) h'
      rw [e] at h
      rw [hca] at h
      exact Bool.noConfusion h
  · simpa using hca

/-- `tgtLe` is total: needed for `List.mergeSort` to sort. -/
theorem tgtLe_total (a b : BmcTarget) : (tgtLe a b || tgtLe b a) = true := by
  rcases lt_trichotomy (ruKey a) (ruKey b) with h | h | h
  · simp [tgtLe, h]
  · rcases strLe_total b.ip a.ip with hs | hs <;>
      simp [tgtLe, h, hs]
  · simp [tgtLe, h]

/-- `tgtLe` is transitive: needed for `List.mergeSort` to sort. -/
theorem tgtLe_trans (a b c : BmcTarget)
    (h : tgtLe a b = true) (h' : tgtLe b c = true) : tgtLe a c = true := by
  simp only [tgtLe, Bool.or_eq_true, Bool.and_eq_true, decide_eq_true_eq] at h h' ⊢
  rcases h with h | ⟨h1, h2⟩
  · rcases h' with h' | ⟨h'1, h'2⟩
    · exact Or.inl (h'.trans h)
    · exact Or.inl (h'1 ▸ h)
  · rcases h' with h' | ⟨h'1, h'2⟩
    · exact Or.inl (lt_of_lt_of_eq h' h1.symm)
    · exact Or.inr ⟨h1.trans h'1, strLe_trans h'2 h2⟩

/-- Membership is invariant under the inventory sort. -/
theorem mem_sortTargets {t : BmcTarget} {l : List BmcTarget} :
    t ∈ sortTargets l ↔ t ∈ l :=
  List.mem_insertionSort tgtRel

/-- The inventory sort outputs a list ordered by `tgtRel`. -/
theorem sortTargets_pairwise (l : List BmcTarget) :
    List.Pairwise tgtRel (sortTargets l) := by
  haveI : IsTotal BmcTarget tgtRel :=
    ⟨fun a b => by
      rcases Bool.or_eq_true_iff.mp (tgtLe_total a b) with h | h
      · exact Or.inl h
      · exact Or.inr h⟩
  haveI : IsTrans BmcTarget tgtRel :=
    ⟨fun a b c hab hbc => tgtLe_trans a b c hab hbc⟩
  exact List.sorted_insertionSort tgtRel l

/-- Sorting an already-sorted target list is the identity. -/
theorem sortTargets_idem (l : List BmcTarget) :
    sortTargets (sortTargets l) = sortTargets l :=
  List.Sorted.insertionSort_eq (sortTargets_pairwise l)

/-! ## Structural lemmas about the merge step -/

/-- Unfolding of the merge map on a lease already known. -/
theorem mergeLeases_cons_known {l : Lease} {m : List (String × BmcDetails)}
    (rest : List Lease) (hl : l.ip ∈ m.map Prod.fst) :
    mergeLeases m (l :: rest) = mergeLeases m rest := by
  simp only [mergeLeases]
  rw [if_pos hl]

/-- Unfolding of the merge map on a new lease. -/
theorem mergeLeases_fst_cons_new {l : Lease} {m : List (String × BmcDetails)}
    (rest : List Lease) (hl : l.ip ∉ m.map Prod.fst) :
    (mergeLeases m (l :: rest)).1 =
      (mergeLeases (m ++ [(l.ip, mergeDetails l)]) rest).1 := by
  simp only [mergeLeases]
  rw [if_neg hl]
  by_cases hh : optStr l.hostname ≠ ""
  · rw [if_pos hh]
  · rw [if_neg hh]

/-- The merge step never drops a key. -/
theorem mergeLeases_keys_mono : ∀ (leases : List Lease) (m : List (String × BmcDetails))
    {ip : String}, ip ∈ m.map Prod.fst → ip ∈ (mergeLeases m leases).1.map Prod.fst := by
  intro leases
  induction leases with
  | nil => intro m ip h; exact h
  | cons l rest ih =>
    intro m ip h
    by_cases hl : l.ip ∈ m.map Prod.fst
    · rw [mergeLeases_cons_known rest hl]
      exact ih m h
    · rw [mergeLeases_fst_cons_new rest hl]
      refine ih _ ?_
      simp only [List.map_append, List.mem_append]
      exact Or.inl h

/-- After the merge, every lease of the batch has its IP in the map. -/
theorem mergeLeases_covers : ∀ (leases : List Lease) (m : List (String × BmcDetails))
    {l : Lease}, l ∈ leases → l.ip ∈ (mergeLeases m leases).1.map Prod.fst := by
  intro leases
  induction leases with
  | nil => intro m l h; cases h
  | cons l0 rest ih =>
    intro m l h
    by_cases hl : l0.ip ∈ m.map Prod.fst
    · rw [mergeLeases_cons_known rest hl]
      rcases List.mem_cons.mp h with rfl | h'
      · exact mergeLeases_keys_mono rest m hl
      · exact ih m h'
    · rw [mergeLeases_fst_cons_new rest hl]
      rcases List.mem_cons.mp h with rfl | h'
      · refine mergeLeases_keys_mono rest _ ?_
        simp
      · exact ih _ h'

/-- Every key of the merged map is an old key or the IP of a batch
lease. -/
theorem mergeLeases_keys_sub : ∀ (leases : List Lease) (m : List (String × BmcDetails))
    {ip : String}, ip ∈ (mergeLeases m leases).1.map Prod.fst →
    ip ∈ m.map Prod.fst ∨ ∃ l ∈ leases, l.ip = ip := by
  intro leases
  induction leases with
  | nil => intro m ip h; exact Or.inl h
  | cons l0 rest ih =>
    intro m ip h
    by_cases hl : l0.ip ∈ m.map Prod.fst
    · rw [mergeLeases_cons_known rest hl] at h
      rcases ih m h with h' | ⟨l', hl', he⟩
      · exact Or.inl h'
      · exact Or.inr ⟨l', List.mem_cons_of_mem _ hl', he⟩
    · rw [mergeLeases_fst_cons_new rest hl] at h
      rcases ih _ h with h' | ⟨l', hl', he⟩
      · simp only [List.map_append, List.mem_append, List.map_cons, List.map_nil,
          List.mem_singleton] at h'
        rcases h' with h' | h'
        · exact Or.inl h'
        · exact Or.inr ⟨l0, List.mem_cons_self _ _, h'.symm⟩
      · exact Or.inr ⟨l', List.mem_cons_of_mem _ hl', he⟩

/-- The merge is a no-op when every lease IP is already known. -/
theorem mergeLeases_noop : ∀ (leases : List Lease) (m : List (String × BmcDetails)),
    (∀ l ∈ leases, l.ip ∈ m.map Prod.fst) → mergeLeases m leases = (m, [], []) := by
  intro leases
  induction leases with
  | nil => intro m _; rfl
  | cons l rest ih =>
    intro m h
    have hl : l.ip ∈ m.map Prod.fst := h l (List.mem_cons_self l rest)
    rw [mergeLeases_cons_known rest hl]
    exact ih m (fun l' hl' => h l' (List.mem_cons_of_mem l hl'))

/-- Only leases of the batch are promoted to static reservations. -/
theorem mergeLeases_promoted_sub : ∀ (leases : List Lease) (m : List (String × BmcDetails))
    {l : Lease}, l ∈ (mergeLeases m leases).2.1 → l ∈ leases := by
  intro leases
  induction leases with
  | nil => intro m l h; cases h
  | cons l0 rest ih =>
    intro m l h
    by_cases hl : l0.ip ∈ m.map Prod.fst
    · rw [mergeLeases_cons_known rest hl] at h
      exact List.mem_cons_of_mem l0 (ih m h)
    · simp only [mergeLeases] at h
      rw [if_neg hl] at h
      by_cases hh : optStr l0.hostname ≠ ""
      · rw [if_pos hh] at h
        rcases List.mem_cons.mp h with rfl | h'
        · exact List.mem_cons_self _ _
        · exact List.mem_cons_of_mem l0 (ih _ h')
      · rw [if_neg hh] at h
        exact List.mem_cons_of_mem l0 (ih _ h)

/-- Lookup in an association list is unaffected by appending rows, for
keys already present. -/
theorem lookup_append_left {β : Type} : ∀ (m ext : List (String × β)) {ip : String},
    ip ∈ m.map Prod.fst → (m ++ ext).lookup ip = m.lookup ip := by
  intro m
  induction m with
  | nil => intro ext ip h; cases h
  | cons p rest ih =>
    intro ext ip h
    rcases p with ⟨k, v⟩
    by_cases he : ip = k
    · subst he
      simp [List.lookup]
    · have hb : (ip == k) = false := by simp [he]
      simp only [List.cons_append, List.lookup, hb]
      refine ih ext ?_
      simp only [List.map_cons, List.mem_cons] at h
      rcases h with h' | h'
      · exact absurd h' he
      · exact h'

/-- First-write-wins: the merge step never changes the record of an IP
that was already in the map. -/
theorem mergeLeases_lookup_preserved : ∀ (leases : List Lease)
    (m : List (String × BmcDetails)) {ip : String}, ip ∈ m.map Prod.fst →
    (mergeLeases m leases).1.lookup ip = m.lookup ip := by
  intro leases
  induction leases with
  | nil => intro m ip _; rfl
  | cons l rest ih =>
    intro m ip h
    by_cases hl : l.ip ∈ m.map Prod.fst
    · rw [mergeLeases_cons_known rest hl]
      exact ih m h
    · rw [mergeLeases_fst_cons_new rest hl]
      have h' : ip ∈ (m ++ [(l.ip, mergeDetails l)]).map Prod.fst := by
        simp only [List.map_append, List.mem_append]
        exact Or.inl h
      exact (ih _ h').trans (lookup_append_left m _ h)

/-! ## Structural lemmas about building and loading target rows -/

/-- Building preserves the keys of the map, in order. -/
theorem buildTargets_ips (m : List (String × BmcDetails)) :
    (buildTargets m).map BmcTarget.ip = m.map Prod.fst := by
  simp [buildTargets, Function.comp]

/-- Every built row carries the rack-unit display string re-derived from
its own hostname. -/
theorem buildTargets_rackUnit {m : List (String × BmcDetails)} {t : BmcTarget}
    (h : t ∈ buildTargets m) : t.rackUnit = formatRackUnit t.hostname := by
  rcases List.mem_map.mp h with ⟨p, _, rfl⟩
  rfl

/-- Rebuilding rows from their own field projections is the identity,
provided every row's rack-unit field is coherent with its hostname. -/
theorem build_map_details : ∀ (T : List BmcTarget),
    (∀ t ∈ T, t.rackUnit = formatRackUnit t.hostname) →
    buildTargets (T.map (fun t => (t.ip, ⟨t.mac, t.hostname, t.manufacturer⟩))) = T := by
  intro T
  induction T with
  | nil => intro _; rfl
  | cons x xs ih =>
    intro h
    have hx := h x (List.mem_cons_self _ _)
    simp only [List.map_cons, buildTargets]
    congr 1
    · rw [← hx]
    · exact ih (fun t ht => h t (List.mem_cons_of_mem x ht))

/-- Reloading a written new-format file and rebuilding its rows is the
identity, provided every row's rack-unit field is coherent with its
hostname (as the writer guarantees). -/
theorem build_load_id (q : String → BmcDetails) (T : List BmcTarget)
    (hfmt : ∀ t ∈ T, t.rackUnit = formatRackUnit t.hostname)
    (hnf : ∀ t0, T.head? = some t0 → t0.mac ≠ "") :
    buildTargets (loadExisting q (some T)) = T := by
  cases T with
  | nil => rfl
  | cons t0 rest =>
    have h0 : t0.mac ≠ "" := hnf t0 rfl
    simp only [loadExisting]
    rw [if_pos h0]
    exact build_map_details (t0 :: rest) hfmt

/-! ## Structural lemmas about grouping -/

theorem mem_firstKeys {κ : Type} [DecidableEq κ] :
    ∀ (l : List κ) (seen : List κ) {k : κ},
    k ∈ firstKeys seen l ↔ k ∈ l ∧ k ∉ seen := by
  intro l
  induction l with
  | nil => intro seen k; simp [firstKeys]
  | cons x xs ih =>
    intro seen k
    simp only [firstKeys]
    by_cases hx : x ∈ seen
    · simp only [hx, if_pos]
      rw [ih]
      constructor
      · rintro ⟨h1, h2⟩
        exact ⟨List.mem_cons_of_mem x h1, h2⟩
      · rintro ⟨h1, h2⟩
        rcases List.mem_cons.mp h1 with rfl | h1
        · exact absurd hx h2
        · exact ⟨h1, h2⟩
    · simp only [hx, if_neg, if_false, not_false_iff]
      constructor
      · intro h
        rcases List.mem_cons.mp h with rfl | h
        · exact ⟨List.mem_cons_self _ _, hx⟩
        · rw [ih] at h
          refine ⟨List.mem_cons_of_mem x h.1, ?_⟩
          intro hk
          exact h.2 (List.mem_cons_of_mem x hk)
      · rintro ⟨h1, h2⟩
        rcases List.mem_cons.mp h1 with rfl | h1
        · exact List.mem_cons_self _ _
        · by_cases hk : k = x
          · subst hk; exact List.mem_cons_self _ _
          · refine List.mem_cons_of_mem x ?_
            rw [ih]
            refine ⟨h1, ?_⟩
            intro hk'
            rcases List.mem_cons.mp hk' with h' | h'
            · exact hk h'
            · exact h2 h'

theorem nodup_firstKeys {κ : Type} [DecidableEq κ] :
    ∀ (l : List κ) (seen : List κ), (firstKeys seen l).Nodup := by
  intro l
  induction l with
  | nil => intro seen; simp [firstKeys]
  | cons x xs ih =>
    intro seen
    simp only [firstKeys]
    by_cases hx : x ∈ seen
    · simp only [hx, if_pos]
      exact ih seen
    · simp only [hx, if_neg, if_false, not_false_iff]
      refine List.Nodup.cons ?_ (ih (x :: seen))
      intro hmem
      exact ((mem_firstKeys xs (x :: seen)).mp hmem).2 (List.mem_cons_self _ _)

/-- The group keys are the distinct keys of the pair list. -/
theorem groupPairs_keys {κ β : Type} [DecidableEq κ] (ps : List (κ × β)) :
    (groupPairs ps).map Prod.fst = firstKeys [] (ps.map Prod.fst) := by
  simp only [groupPairs, List.map_map]
  exact List.map_id _

/-- Each group collects exactly the values filed under its key, in
order. -/
theorem groupPairs_mem {κ β : Type} [DecidableEq κ] {ps : List (κ × β)}
    {g : κ × List β} (h : g ∈ groupPairs ps) :
    g.2 = (ps.filter (fun p => p.1 = g.1)).map Prod.snd := by
  rcases List.mem_map.mp h with ⟨k, _, rfl⟩
  rfl

/-- In a list with duplicate-free keys, the rows with a given present key
are exactly the one row holding it. -/
theorem filter_key_of_nodup {κ β : Type} [DecidableEq κ] :
    ∀ (l : List (κ × β)) {k : κ} {v : β}, (l.map Prod.fst).Nodup →
    (k, v) ∈ l → l.filter (fun g => g.1 = k) = [(k, v)] := by
  intro l
  induction l with
  | nil => intro k v _ h; cases h
  | cons p rest ih =>
    intro k v hnd hm
    rw [List.map_cons, List.nodup_cons] at hnd
    rcases List.mem_cons.mp hm with he | hm'
    · subst he
      have hrest : rest.filter (fun g => g.1 = k) = [] := by
        rw [List.filter_eq_nil_iff]
        intro q hq hqk
        simp only [decide_eq_true_eq] at hqk
        have hq1 : q.1 ∈ rest.map Prod.fst := List.mem_map_of_mem Prod.fst hq
        rw [hqk] at hq1
        exact hnd.1 hq1
      simp [List.filter_cons, hrest]
    · have hne : ¬ (p.1 = k) := by
        intro he
        refine hnd.1 ?_
        rw [he]
        exact List.mem_map_of_mem Prod.fst hm'
      simp only [List.filter_cons, hne, decide_False, Bool.false_eq_true,
        if_false]
      exact ih hnd.2 hm'

/-- Two distinct members force a list length above one. -/
theorem one_lt_length_of_two_mem {α : Type} {a b : α} {l : List α} (ha : a ∈ l)
    (hb : b ∈ l) (hne : a ≠ b) : 1 < l.length := by
  cases l with
  | nil => cases ha
  | cons x rest =>
    cases rest with
    | nil =>
      simp only [List.mem_singleton] at ha hb
      exact absurd (ha.trans hb.symm) hne
    | cons y rest2 =>
      simp only [List.length_cons]
      omega

/-- Filtering a mapped list filters the preimages. -/
theorem filter_of_map {α β : Type} (f : α → β) (p : β → Bool) :
    ∀ l : List α, (l.map f).filter p = (l.filter (fun a => p (f a))).map f := by
  intro l
  induction l with
  | nil => rfl
  | cons x xs ih =>
    simp only [List.map_cons, List.filter_cons]
    cases hp : p (f x) <;> simp [hp, ih]

/-! ## Claim theorems -/

/-- C6: on hostname `us3-cab10-ru7-9-idrac` rack-unit extraction yields
unit set `{7,8,9}`, highest unit `9` and display `"RU 9-7"`; on
`us3-cab10-ru05-bmc` it yields `{5}`, `5` and `"RU 5"`; and every hostname
without a matching `ru` token yields the empty set, `0` and the empty
string — the functions are total, never an error. -/
theorem rack_unit_extraction_spec :
    (getRackUnitRange "us3-cab10-ru7-9-idrac" = {7, 8, 9} ∧
      extractRackUnit "us3-cab10-ru7-9-idrac" = 9 ∧
      formatRackUnit "us3-cab10-ru7-9-idrac" = "RU 9-7") ∧
    (getRackUnitRange "us3-cab10-ru05-bmc" = {5} ∧
      extractRackUnit "us3-cab10-ru05-bmc" = 5 ∧
      formatRackUnit "us3-cab10-ru05-bmc" = "RU 5") ∧
    (∀ h : String, findRu (lowerChars h.data) = none →
      getRackUnitRange h = ∅ ∧ extractRackUnit h = 0 ∧ formatRackUnit h = "") := by
  refine ⟨by decide, by decide, ?_⟩
  intro h hf
  refine ⟨?_, ?_, ?_⟩
  · by_cases hh : h = "" <;> simp [getRackUnitRange, hh, hf]
  · by_cases hh : h = "" <;> simp [extractRackUnit, hh, hf]
  · by_cases hh : h = "" <;> simp [formatRackUnit, hh, hf]

/-- Witness for `rack_unit_extraction_spec` at a hostname without an `ru`
token. -/
theorem rack_unit_extraction_spec_witness :
    getRackUnitRange "rack1-nohyphen" = ∅ ∧ extractRackUnit "rack1-nohyphen" = 0 ∧
      formatRackUnit "rack1-nohyphen" = "" :=
  rack_unit_extraction_spec.2.2 "rack1-nohyphen" (by decide)

/-- C2: with DNS enabled, a successful reservation upsert followed by a
failed DNS creation is rolled back in full — `create_static_reservation`
returns false and the reservation store is left exactly as before. -/
theorem dns_failure_rolls_back_reservation (cfg : ProcCfg)
    (dns : String → String → Bool) (store : List ResRow) (l : Lease) (m : String)
    (hdb : cfg.dbEnabled = true) (hdns : cfg.enableDns = true)
    (hh : optStr l.hostname ≠ "") (hmac : l.mac = some m)
    (hfail : dns (optStr l.hostname) l.ip = false) :
    createStaticReservation cfg dns store l = (false, store) := by
  simp [createStaticReservation, hdb, hdns, hh, hmac, hfail]

/-- Witness for `dns_failure_rolls_back_reservation` on a concrete lease
and a one-row store. -/
theorem dns_failure_rolls_back_reservation_witness :
    createStaticReservation ⟨true, true, 1⟩ (fun _ _ => false)
      [⟨"AABB", 0, 1, "10.0.0.2", "old-host"⟩]
      ⟨"10.0.0.9", some "aa:bb:cc:dd:ee:09", some "us3-cab1-ru3-idrac", none, 0⟩
      = (false, [⟨"AABB", 0, 1, "10.0.0.2", "old-host"⟩]) :=
  dns_failure_rolls_back_reservation _ _ _ _ "aa:bb:cc:dd:ee:09"
    rfl rfl (by decide) rfl rfl

/-- C10: a lease carrying a hostname but no mac address (as the
notification source produces when the payload has no `dhcp_identifier`)
makes `create_static_reservation` return false with the store untouched —
the formatting failure is caught, not propagated. -/
theorem missing_mac_reservation_returns_false (cfg : ProcCfg)
    (dns : String → String → Bool) (store : List ResRow) (l : Lease)
    (hh : optStr l.hostname ≠ "") (hmac : l.mac = none) :
    createStaticReservation cfg dns store l = (false, store) := by
  cases hdb : cfg.dbEnabled <;> simp [createStaticReservation, hdb, hh, hmac]

/-- Witness for `missing_mac_reservation_returns_false` on a concrete
lease. -/
theorem missing_mac_reservation_returns_false_witness :
    createStaticReservation ⟨true, false, 1⟩ (fun _ _ => true) []
      ⟨"10.0.0.5", none, some "us3-cab1-ru4-idrac", none, 0⟩ = (false, []) :=
  missing_mac_reservation_returns_false _ _ _ _ (by decide) rfl

/-- C5: first-write-wins — the merge step leaves the recorded details
(mac, hostname, manufacturer) of every already-present IP unchanged, and
every key of the merged map is either an old key or the IP of some lease
of the batch. -/
theorem merge_first_write_wins (m : List (String × BmcDetails)) (leases : List Lease) :
    (∀ ip ∈ m.map Prod.fst,
        (mergeLeases m leases).1.lookup ip = m.lookup ip) ∧
    (∀ ip ∈ (mergeLeases m leases).1.map Prod.fst,
        ip ∈ m.map Prod.fst ∨ ∃ l ∈ leases, l.ip = ip) := by
  constructor
  · intro ip h
    exact mergeLeases_lookup_preserved leases m h
  · intro ip h
    exact mergeLeases_keys_sub leases m h

/-- Witness for `merge_first_write_wins`: a later lease for a known IP
does not overwrite its recorded identity. -/
theorem merge_first_write_wins_witness :
    (mergeLeases [("10.0.0.1", ⟨"aa:bb", "us3-cab1-ru2-idrac", "Dell"⟩)]
        [⟨"10.0.0.1", some "ff:ff", some "us3-cab1-ru9-ilo", none, 0⟩]).1.lookup "10.0.0.1"
      = some ⟨"aa:bb", "us3-cab1-ru2-idrac", "Dell"⟩ :=
  ((merge_first_write_wins [("10.0.0.1", ⟨"aa:bb", "us3-cab1-ru2-idrac", "Dell"⟩)]
      [⟨"10.0.0.1", some "ff:ff", some "us3-cab1-ru9-ilo", none, 0⟩]).1
    "10.0.0.1" (by decide)).trans (by decide)

/-- C1 (amended): on every inventory write the `rack_unit` display string
of each persisted target is re-derived from that target's current
hostname; the manufacturer field, by contrast, is carried over from the
loaded inventory for already-known targets. -/
theorem rack_unit_rederived_at_write (q : String → BmcDetails) (site cabinet : String)
    (leases : List Lease) (file : Option (List BmcTarget)) :
    ∀ t ∈ (updateCabinetInventory q site cabinet leases file).inv.bmcTargets,
      t.rackUnit = formatRackUnit t.hostname := by
  intro t ht
  exact buildTargets_rackUnit (mem_sortTargets.mp ht)

/-- Witness for `rack_unit_rederived_at_write` at a concrete pass. -/
theorem rack_unit_rederived_at_write_witness :
    (⟨"10.0.0.9", "aa", "us3-cab1-ru3-idrac", "RU 3", "Dell"⟩ : BmcTarget) ∈
      (updateCabinetInventory queryDisabled "us3" "cab1"
        [⟨"10.0.0.9", some "aa", some "us3-cab1-ru3-idrac", none, 0⟩] none).inv.bmcTargets ∧
    (⟨"10.0.0.9", "aa", "us3-cab1-ru3-idrac", "RU 3", "Dell"⟩ : BmcTarget).rackUnit
      = formatRackUnit "us3-cab1-ru3-idrac" :=
  ⟨by decide,
   rack_unit_rederived_at_write queryDisabled "us3" "cab1"
     [⟨"10.0.0.9", some "aa", some "us3-cab1-ru3-idrac", none, 0⟩] none
     ⟨"10.0.0.9", "aa", "us3-cab1-ru3-idrac", "RU 3", "Dell"⟩ (by decide)⟩

/-- C1 counterexample: two passes identical except for the manufacturer
previously persisted for `10.0.0.1` write different manufacturers — the
persisted value `HP` is kept although `_detect_manufacturer` of the
hostname yields `Dell`, so the field is not a pure function of the
hostname. -/
theorem manufacturer_from_persisted_value :
    ((updateCabinetInventory queryDisabled "us3" "cab1"
        [⟨"10.0.0.9", some "bb", some "us3-cab1-ru3-idrac", none, 0⟩]
        (some [⟨"10.0.0.1", "aa", "us3-cab1-ru2-idrac", "RU 2", "HP"⟩])).inv.bmcTargets.map
          BmcTarget.manufacturer ≠
      (updateCabinetInventory queryDisabled "us3" "cab1"
        [⟨"10.0.0.9", some "bb", some "us3-cab1-ru3-idrac", none, 0⟩]
        (some [⟨"10.0.0.1", "aa", "us3-cab1-ru2-idrac", "RU 2", "Dell"⟩])).inv.bmcTargets.map
          BmcTarget.manufacturer) ∧
    (⟨"10.0.0.1", "aa", "us3-cab1-ru2-idrac", "RU 2", "HP"⟩ : BmcTarget) ∈
      (updateCabinetInventory queryDisabled "us3" "cab1"
        [⟨"10.0.0.9", some "bb", some "us3-cab1-ru3-idrac", none, 0⟩]
        (some [⟨"10.0.0.1", "aa", "us3-cab1-ru2-idrac", "RU 2", "HP"⟩])).inv.bmcTargets ∧
    detectManufacturer "us3-cab1-ru2-idrac" = "Dell" := by decide

/-- C4 (amended): every written inventory is sorted by the rack unit
extracted from the hostname, descending, with ties broken by ip in
descending string order; targets without a hostname (key `-1`) sort last,
also by ip descending.  The claim's three-target scenario sorts as
`[ru9, ru3, 10.0.0.3]`. -/
theorem inventory_sorted_by_rack_unit (q : String → BmcDetails) (site cabinet : String)
    (leases : List Lease) (file : Option (List BmcTarget)) :
    List.Pairwise
      (fun a b => ruKey b < ruKey a ∨ (ruKey a = ruKey b ∧ strLe b.ip a.ip = true))
      (updateCabinetInventory q site cabinet leases file).inv.bmcTargets ∧
    (sortTargets
        [⟨"10.0.0.1", "", "us3-cab10-ru3-idrac", "", ""⟩,
         ⟨"10.0.0.2", "", "us3-cab10-ru9-idrac", "", ""⟩,
         ⟨"10.0.0.3", "", "", "", ""⟩]).map BmcTarget.ip
      = ["10.0.0.2", "10.0.0.1", "10.0.0.3"] := by
  constructor
  · refine List.Pairwise.imp ?_ (sortTargets_pairwise _)
    intro a b hab
    simpa [tgtRel, tgtLe, Bool.or_eq_true, Bool.and_eq_true, decide_eq_true_eq]
      using hab
  · decide

/-- C4 counterexample: two targets without hostnames sort by ip in
descending string order, not ascending — `reverse=True` reverses the ip
tie-break as well. -/
theorem no_hostname_targets_sorted_ip_descending :
    (sortTargets [⟨"10.0.0.1", "", "", "", ""⟩, ⟨"10.0.0.2", "", "", "", ""⟩]).map
        BmcTarget.ip = ["10.0.0.2", "10.0.0.1"] ∧
    (sortTargets [⟨"10.0.0.1", "", "", "", ""⟩, ⟨"10.0.0.2", "", "", "", ""⟩]).map
        BmcTarget.ip ≠ ["10.0.0.1", "10.0.0.2"] := by decide

/-- C9 (amended): if the poll source is called twice and the log's
modification time at the second call equals the (nonzero) time observed at
the first call, the second call returns an empty batch without reading the
log body, leaving the source state unchanged. -/
theorem unchanged_mtime_second_call_empty (subnetFilter : Option (List String))
    (st : FileSourceState) (f1 f2 : LeaseFile)
    (h1 : f1.present = true) (h2 : f2.present = true)
    (heq : f2.mtime = f1.mtime) (hnz : f1.mtime ≠ 0) :
    getNewLeases subnetFilter (getNewLeases subnetFilter st f1).2.1 f2
      = ([], (getNewLeases subnetFilter st f1).2.1, false) := by
  by_cases hu : mtimeUnchanged st.lastMtime f1.mtime = true
  · have hst : (getNewLeases subnetFilter st f1).2.1 = st := by
      simp [getNewLeases, h1, hu]
    rw [hst]
    have hu2 : mtimeUnchanged st.lastMtime f2.mtime = true := by
      cases hl : st.lastMtime with
      | none => rw [hl] at hu; simp [mtimeUnchanged] at hu
      | some m =>
        rw [hl] at hu
        simp only [mtimeUnchanged, Bool.and_eq_true, decide_eq_true_eq] at hu ⊢
        exact ⟨hu.1, heq.trans hu.2⟩
    simp [getNewLeases, h2, hu2]
  · have hu' : mtimeUnchanged st.lastMtime f1.mtime = false := by
      simpa using hu
    have hst : (getNewLeases subnetFilter st f1).2.1
        = { st with lastMtime := some f1.mtime } := by
      simp [getNewLeases, h1, hu']
    rw [hst]
    have hu2 : mtimeUnchanged (some f1.mtime) f2.mtime = true := by
      simp [mtimeUnchanged, hnz, heq]
    simp [getNewLeases, h2, hu2]

/-- Witness for `unchanged_mtime_second_call_empty` on a concrete log. -/
theorem unchanged_mtime_second_call_empty_witness :
    getNewLeases none
      (getNewLeases none ⟨[], none⟩
        ⟨true, 5, [["10.0.0.1", "aa:bb:cc:dd:ee:01", "0", "0", "123", "7", "0", "0",
          "us3-cab1-ru2-idrac"]]⟩).2.1
      ⟨true, 5, [["10.0.0.1", "aa:bb:cc:dd:ee:01", "0", "0", "123", "7", "0", "0",
        "us3-cab1-ru2-idrac"]]⟩
      = ([], (getNewLeases none ⟨[], none⟩
          ⟨true, 5, [["10.0.0.1", "aa:bb:cc:dd:ee:01", "0", "0", "123", "7", "0", "0",
            "us3-cab1-ru2-idrac"]]⟩).2.1, false) :=
  unchanged_mtime_second_call_empty none ⟨[], none⟩ _ _ rfl rfl rfl (by decide)

/-- C9 counterexample: when the log's modification time is `0` (the Unix
epoch, falsy in the `if self.last_mtime` test), a second call with the
time unchanged re-reads the log and returns the same lease again. -/
theorem mtime_zero_second_call_rereads :
    ((getNewLeases none
        (getNewLeases none ⟨[], none⟩
          ⟨true, 0, [["10.0.0.1", "aa:bb:cc:dd:ee:01", "0", "0", "123", "7", "0", "0",
            "us3-cab1-ru2-idrac"]]⟩).2.1
        ⟨true, 0, [["10.0.0.1", "aa:bb:cc:dd:ee:01", "0", "0", "123", "7", "0", "0",
          "us3-cab1-ru2-idrac"]]⟩).1 ≠ []) ∧
    ((getNewLeases none
        (getNewLeases none ⟨[], none⟩
          ⟨true, 0, [["10.0.0.1", "aa:bb:cc:dd:ee:01", "0", "0", "123", "7", "0", "0",
            "us3-cab1-ru2-idrac"]]⟩).2.1
        ⟨true, 0, [["10.0.0.1", "aa:bb:cc:dd:ee:01", "0", "0", "123", "7", "0", "0",
          "us3-cab1-ru2-idrac"]]⟩).2.2 = true) := by decide

/-- C7: a lease whose hostname does not match the `{site}-cab{number}-`
convention contributes to no cabinet inventory (the reconciliation output
is the same with and without it) and is never promoted to a static
reservation. -/
theorem convention_mismatch_filtered (q : String → BmcDetails)
    (files : String × String → Option (List BmcTarget))
    (xs ys : List Lease) (l : Lease)
    (h : extractSiteAndCabinet l.hostname = none) :
    generateBatchInventory q files (xs ++ l :: ys)
        = generateBatchInventory q files (xs ++ ys) ∧
    ∀ e ∈ generateBatchInventory q files (xs ++ l :: ys), l ∉ e.2.promoted := by
  have hg : groupLeases (xs ++ l :: ys) = groupLeases (xs ++ ys) := by
    unfold groupLeases
    rw [List.filterMap_append, List.filterMap_append, List.filterMap_cons]
    simp [h]
  constructor
  · unfold generateBatchInventory
    rw [hg]
  · intro e he hprom
    rcases List.mem_map.mp he with ⟨g, hgmem, rfl⟩
    have hlg : l ∈ g.2 := mergeLeases_promoted_sub _ _ hprom
    have h2 := groupPairs_mem hgmem
    rw [h2] at hlg
    rcases List.mem_map.mp hlg with ⟨p, hp, hpe⟩
    have hpf := List.mem_filter.mp hp
    rcases List.mem_filterMap.mp hpf.1 with ⟨l0, _, hl0⟩
    cases hx : extractSiteAndCabinet l0.hostname with
    | none => rw [hx] at hl0; cases hl0
    | some k0 =>
      rw [hx] at hl0
      simp only [Option.map_some'] at hl0
      injection hl0 with hl0'
      have hp2 : p.2 = l0 := by rw [← hl0']
      have hll : l0 = l := hp2.symm.trans hpe
      rw [hll] at hx
      rw [h] at hx
      cases hx

/-- Witness for `convention_mismatch_filtered` on a concrete batch. -/
theorem convention_mismatch_filtered_witness :
    generateBatchInventory queryDisabled (fun _ => none)
        ([⟨"10.0.0.9", some "aa", some "us3-cab1-ru3-idrac", none, 0⟩] ++
          (⟨"10.0.0.7", some "bb", some "rack1-nohyphen", none, 0⟩ : Lease) :: [])
      = generateBatchInventory queryDisabled (fun _ => none)
          ([⟨"10.0.0.9", some "aa", some "us3-cab1-ru3-idrac", none, 0⟩] ++ []) :=
  (convention_mismatch_filtered queryDisabled (fun _ => none)
    [⟨"10.0.0.9", some "aa", some "us3-cab1-ru3-idrac", none, 0⟩] []
    ⟨"10.0.0.7", some "bb", some "rack1-nohyphen", none, 0⟩ (by decide)).1

/-- C3 (amended): running the reconcile step twice — the second run
starting from the inventory produced by the first, with the same batch —
yields an identical final inventory, provided the first run's leading
persisted target carries a mac, so that the file reloads as the inline
new-format shape.  (A leading target without a mac sends the reload down
the legacy reconstruction path; see the counterexample.) -/
theorem reconcile_idempotent_new_format (q : String → BmcDetails)
    (site cabinet : String) (leases : List Lease) (file : Option (List BmcTarget))
    (hnf : ∀ t0, (updateCabinetInventory q site cabinet leases file).inv.bmcTargets.head?
        = some t0 → t0.mac ≠ "") :
    (updateCabinetInventory q site cabinet leases
        (some (updateCabinetInventory q site cabinet leases file).inv.bmcTargets)).inv
      = (updateCabinetInventory q site cabinet leases file).inv := by
  set T := (updateCabinetInventory q site cabinet leases file).inv.bmcTargets with hT
  have hfmt : ∀ t ∈ T, t.rackUnit = formatRackUnit t.hostname := by
    intro t ht
    exact buildTargets_rackUnit (mem_sortTargets.mp ht)
  have hcov : ∀ l ∈ leases, l.ip ∈ T.map BmcTarget.ip := by
    intro l hl
    have h1 : l.ip ∈ (mergeLeases (loadExisting q file) leases).1.map Prod.fst :=
      mergeLeases_covers leases _ hl
    rw [← buildTargets_ips] at h1
    have hperm :
        (T.map BmcTarget.ip).Perm
          ((buildTargets (mergeLeases (loadExisting q file) leases).1).map BmcTarget.ip) :=
      (List.perm_insertionSort tgtRel _).map _
    exact hperm.mem_iff.mpr h1
  have hload : loadExisting q (some T)
      = T.map (fun t => (t.ip, ⟨t.mac, t.hostname, t.manufacturer⟩)) := by
    cases hc : T with
    | nil => rfl
    | cons t0 rest =>
      have h0 : t0.mac ≠ "" := hnf t0 (by rw [hc]; rfl)
      simp only [loadExisting]
      rw [if_pos h0]
  have hkeys : (loadExisting q (some T)).map Prod.fst = T.map BmcTarget.ip := by
    rw [hload, List.map_map]
    rfl
  have hnoop : mergeLeases (loadExisting q (some T)) leases
      = (loadExisting q (some T), [], []) := by
    refine mergeLeases_noop leases _ ?_
    intro l hl
    rw [hkeys]
    exact hcov l hl
  have hbuild : buildTargets (loadExisting q (some T)) = T := by
    rw [hload]
    exact build_map_details T hfmt
  have hsort : sortTargets T = T :=
    sortTargets_idem (buildTargets (mergeLeases (loadExisting q file) leases).1)
  have key : (updateCabinetInventory q site cabinet leases (some T)).inv.bmcTargets = T := by
    show sortTargets (buildTargets (mergeLeases (loadExisting q (some T)) leases).1) = T
    rw [hnoop]
    show sortTargets (buildTargets (loadExisting q (some T))) = T
    rw [hbuild]
    exact hsort
  exact congrArg
    (fun X : List BmcTarget =>
      ({ bmcTargets := X, site := site, cabinet := cabinet,
         totalCount := X.length } : CabinetInventory)) key

/-- Witness for `reconcile_idempotent_new_format` on a concrete batch
whose lease carries a mac. -/
theorem reconcile_idempotent_new_format_witness :
    (updateCabinetInventory queryDisabled "us3" "cab1"
        [⟨"10.0.0.1", some "aa:bb", some "us3-cab1-ru5-idrac", none, 0⟩]
        (some (updateCabinetInventory queryDisabled "us3" "cab1"
          [⟨"10.0.0.1", some "aa:bb", some "us3-cab1-ru5-idrac", none, 0⟩]
          none).inv.bmcTargets)).inv
      = (updateCabinetInventory queryDisabled "us3" "cab1"
          [⟨"10.0.0.1", some "aa:bb", some "us3-cab1-ru5-idrac", none, 0⟩] none).inv :=
  reconcile_idempotent_new_format queryDisabled "us3" "cab1"
    [⟨"10.0.0.1", some "aa:bb", some "us3-cab1-ru5-idrac", none, 0⟩] none
    (by
      intro t0 ht
      injection ht with h
      rw [← h]
      decide)

/-- C3 counterexample: a batch whose lease has an empty mac writes a
leading target without a mac key; the second run then reloads the file
through the legacy reconstruction path (a database lookup, here disabled)
and produces a different final inventory — the hostname is lost. -/
theorem reconcile_not_idempotent_empty_mac :
    (updateCabinetInventory queryDisabled "us3" "cab1"
        [⟨"10.0.0.1", some "", some "us3-cab1-ru5-idrac", none, 0⟩]
        (some (updateCabinetInventory queryDisabled "us3" "cab1"
          [⟨"10.0.0.1", some "", some "us3-cab1-ru5-idrac", none, 0⟩]
          none).inv.bmcTargets)).inv
      ≠ (updateCabinetInventory queryDisabled "us3" "cab1"
          [⟨"10.0.0.1", some "", some "us3-cab1-ru5-idrac", none, 0⟩] none).inv := by
  decide

/-- Membership is invariant under `sortStrings`. -/
theorem mem_sortStrings {x : String} {l : List String} : x ∈ sortStrings l ↔ x ∈ l :=
  List.mem_insertionSort _

/-- C8: for every pair of targets in one cabinet sharing the same
non-empty mac with different ips, conflict detection reports exactly one
mac-conflict warning for that mac, that warning cites both ips, and the
inventory written is the sorted merge output regardless of the conflict
report (conflicts never block the write). -/
theorem mac_conflict_reported_once (bmcTargets : List BmcTarget) (site cabinet : String)
    (t1 t2 : BmcTarget) (h1 : t1 ∈ bmcTargets) (h2 : t2 ∈ bmcTargets)
    (hm : t2.mac = t1.mac) (hmne : t1.mac ≠ "") (hip : t1.ip ≠ t2.ip) :
    ((validateBmcConflicts bmcTargets site cabinet).filter
        (isMacConflictFor t1.mac)).length = 1 ∧
    (∀ s c m ips,
        Warning.macConflict s c m ips ∈ validateBmcConflicts bmcTargets site cabinet →
        m = t1.mac → t1.ip ∈ ips ∧ t2.ip ∈ ips) ∧
    (∀ (q : String → BmcDetails) (leases : List Lease) (file : Option (List BmcTarget)),
        (updateCabinetInventory q site cabinet leases file).inv.bmcTargets
          = sortTargets (buildTargets (mergeLeases (loadExisting q file) leases).1)) := by
  set ps := (bmcTargets.filter (fun t => t.mac ≠ "")).map (fun t => (t.mac, t.ip)) with hps
  set vals := (ps.filter (fun p => p.1 = t1.mac)).map Prod.snd with hvals
  set Gs := groupPairs ps with hGs
  set f := fun g : String × List String =>
    Warning.macConflict site cabinet g.1 (sortStrings g.2) with hf
  set macWs := (Gs.filter (fun g => 1 < g.2.length)).map f with hmacWs
  set hostWs := ((groupPairs ((bmcTargets.filter (fun t => t.hostname ≠ "")).map
      (fun t => (t.hostname, t.ip)))).filter (fun g => 1 < g.2.length)).map
      (fun g => Warning.hostnameConflict site cabinet g.1 (sortStrings g.2)) with hhostWs
  set ruWs := ((groupPairs ((bmcTargets.filter (fun t => t.hostname ≠ "")).flatMap
      (fun t => (rackUnitRangeList t.hostname).map
        (fun ru => (ru, (t.ip, t.hostname)))))).filter (fun g => 1 < g.2.length)).map
      (fun g => Warning.ruConflict site cabinet g.1 (sortPairs g.2)) with hruWs
  have hW : validateBmcConflicts bmcTargets site cabinet
      = if macWs ++ hostWs ++ ruWs = [] then macWs ++ hostWs ++ ruWs
        else (macWs ++ hostWs ++ ruWs) ++ [Warning.cabinetSummary site cabinet] := rfl
  -- membership facts about the mac grouping
  have hps1 : (t1.mac, t1.ip) ∈ ps := by
    rw [hps]
    refine List.mem_map_of_mem _ ?_
    rw [List.mem_filter]
    exact ⟨h1, by simpa using hmne⟩
  have hps2 : (t1.mac, t2.ip) ∈ ps := by
    rw [hps]
    have h2m : (t2.mac, t2.ip) ∈ (bmcTargets.filter (fun t => t.mac ≠ "")).map
        (fun t => (t.mac, t.ip)) := by
      refine List.mem_map_of_mem _ ?_
      rw [List.mem_filter]
      refine ⟨h2, ?_⟩
      rw [hm]
      simpa using hmne
    rwa [hm] at h2m
  have hv1 : t1.ip ∈ vals := by
    rw [hvals]
    have hmem1 : (t1.mac, t1.ip) ∈ ps.filter (fun p => p.1 = t1.mac) := by
      rw [List.mem_filter]
      exact ⟨hps1, by simp⟩
    exact List.mem_map_of_mem Prod.snd hmem1
  have hv2 : t2.ip ∈ vals := by
    rw [hvals]
    have hmem2 : (t1.mac, t2.ip) ∈ ps.filter (fun p => p.1 = t1.mac) := by
      rw [List.mem_filter]
      exact ⟨hps2, by simp⟩
    exact List.mem_map_of_mem Prod.snd hmem2
  have hlen : 1 < vals.length := one_lt_length_of_two_mem hv1 hv2 hip
  have hkey : t1.mac ∈ ps.map Prod.fst := List.mem_map_of_mem Prod.fst hps1
  have hGnodup : (Gs.map Prod.fst).Nodup := by
    rw [hGs, groupPairs_keys]
    exact nodup_firstKeys _ _
  have hGmem : (t1.mac, vals) ∈ Gs := by
    rw [hGs]
    have hk : t1.mac ∈ firstKeys [] (ps.map Prod.fst) :=
      (mem_firstKeys _ _).mpr ⟨hkey, by simp⟩
    exact List.mem_map_of_mem _ hk
  have hGfilterEq : Gs.filter (fun g => g.1 = t1.mac) = [(t1.mac, vals)] :=
    filter_key_of_nodup Gs hGnodup hGmem
  -- the one mac warning
  have hA : macWs.filter (isMacConflictFor t1.mac)
      = [Warning.macConflict site cabinet t1.mac (sortStrings vals)] := by
    rw [hmacWs, filter_of_map]
    have hpred : (fun g : String × List String => isMacConflictFor t1.mac (f g))
        = (fun g : String × List String => decide (g.1 = t1.mac)) := rfl
    rw [hpred, List.filter_comm, hGfilterEq]
    have : decide (1 < vals.length) = true := by simpa using hlen
    simp [List.filter_cons, this, hf]
  have hmacne : macWs ≠ [] := by
    intro h0
    rw [h0] at hA
    simp at hA
  have hwsne : macWs ++ hostWs ++ ruWs ≠ [] := by
    intro h0
    rcases List.append_eq_nil.mp h0 with ⟨h0l, _⟩
    rcases List.append_eq_nil.mp h0l with ⟨h0m, _⟩
    exact hmacne h0m
  have hHost0 : hostWs.filter (isMacConflictFor t1.mac) = [] := by
    rw [hhostWs, filter_of_map]
    have hpred : (fun g : String × List String => isMacConflictFor t1.mac
        (Warning.hostnameConflict site cabinet g.1 (sortStrings g.2)))
        = (fun _ : String × List String => false) := rfl
    rw [hpred]
    simp
  have hRu0 : ruWs.filter (isMacConflictFor t1.mac) = [] := by
    rw [hruWs, filter_of_map]
    have hpred : (fun g : Nat × List (String × String) => isMacConflictFor t1.mac
        (Warning.ruConflict site cabinet g.1 (sortPairs g.2)))
        = (fun _ : Nat × List (String × String) => false) := rfl
    rw [hpred]
    simp
  refine ⟨?_, ?_, fun q leases file => rfl⟩
  · rw [hW, if_neg hwsne, List.filter_append, List.filter_append, List.filter_append,
      hA, hHost0, hRu0]
    simp [isMacConflictFor]
  · intro s c m ips hmem hmeq
    rw [hW, if_neg hwsne] at hmem
    simp only [List.mem_append] at hmem
    rcases hmem with ((hmem | hmem) | hmem) | hmem
    · -- a mac warning: necessarily the one for t1.mac
      rw [hmacWs] at hmem
      rcases List.mem_map.mp hmem with ⟨g, hgmem, hge⟩
      rw [hf] at hge
      injection hge with e1 e2 e3 e4
      have hg1 : g.1 = t1.mac := e3.trans hmeq
      have hgGs : g ∈ Gs := (List.mem_filter.mp hgmem).1
      have : g ∈ Gs.filter (fun g => g.1 = t1.mac) := by
        rw [List.mem_filter]
        exact ⟨hgGs, by simpa using hg1⟩
      rw [hGfilterEq, List.mem_singleton] at this
      have hg2 : g.2 = vals := by rw [this]
      rw [← e4, hg2]
      exact ⟨mem_sortStrings.mpr hv1, mem_sortStrings.mpr hv2⟩
    · -- hostname warnings are not mac warnings
      rw [hhostWs] at hmem
      rcases List.mem_map.mp hmem with ⟨g, _, hge⟩
      cases hge
    · -- rack-unit warnings are not mac warnings
      rw [hruWs] at hmem
      rcases List.mem_map.mp hmem with ⟨g, _, hge⟩
      cases hge
    · -- the summary line is not a mac warning
      rw [List.mem_singleton] at hmem
      cases hmem

/-- Witness for `mac_conflict_reported_once` on a concrete two-target
cabinet. -/
theorem mac_conflict_reported_once_witness :
    ((validateBmcConflicts
        [⟨"10.0.0.1", "aa:bb", "us3-cab1-ru2-idrac", "RU 2", "Dell"⟩,
         ⟨"10.0.0.2", "aa:bb", "us3-cab1-ru3-idrac", "RU 3", "Dell"⟩]
        "us3" "cab1").filter (isMacConflictFor "aa:bb")).length = 1 :=
  (mac_conflict_reported_once
    [⟨"10.0.0.1", "aa:bb", "us3-cab1-ru2-idrac", "RU 2", "Dell"⟩,
     ⟨"10.0.0.2", "aa:bb", "us3-cab1-ru3-idrac", "RU 3", "Dell"⟩]
    "us3" "cab1"
    ⟨"10.0.0.1", "aa:bb", "us3-cab1-ru2-idrac", "RU 2", "Dell"⟩
    ⟨"10.0.0.2", "aa:bb", "us3-cab1-ru3-idrac", "RU 3", "Dell"⟩
    (by decide) (by decide) rfl (by decide) (by decide)).1

end KeaLeaseMonitor
